import Mathlib

/-!
Verification development for the `scrape_news.py` batch scraper
(dignityny-website repository).

The pure core of each component is shallowly embedded as executable Lean
functions over `List Char` / `String`:

* URL normalization: `re.sub(r"/index\.php/", "/", url)` — modelled by
  `normCharsAux` / `normalizeUrl`, which performs the same leftmost,
  non-overlapping, single left-to-right pass as Python `re.sub`
  (the replacement text is not rescanned).
* `collect_article_urls` (listing pagination loop, lines 58-91): the
  network fetch and the HTML tree are external capabilities; a listing
  page is modelled as the list of its `article.story` blocks, each block
  as the ordered list of its anchor hrefs.  `urljoin BASE_URL` is an
  external primitive and is passed as an abstract `resolve` function.
* `make_local_filename` (lines 94-108): `urlparse(...).path` composed
  with `unquote` is an external primitive, passed as the abstract
  `pathOf` function; `hashlib.md5(...).hexdigest()` is likewise passed
  as the abstract `md5hex` function.  `os.path.basename`, the regexes
  `\?.*$` (with Python dollar-before-final-newline semantics),
  `\.\w{2,5}$` and `[^\w.\-]` are modelled concretely.  Python `\w` is
  modelled as alphanumeric-or-underscore (`Char.isAlphanum` is the ASCII
  reading of Python's unicode word class).
* the per-image localization step inside `scrape_article`
  (lines 144-171): the filesystem existence check and the download are
  external effects, modelled by abstract boolean oracles; the step's
  observable effects (final `src`, `style`, the appended image refs and
  whether `download_image` was invoked at all) are returned explicitly.
  `os.path.join(IMAGES_DIR, name)` is modelled in its POSIX form
  `"images/" ++ name`, which also equals the rewritten reference
  `f"images/{name}"`.
* `try_extract_date_from_title` (lines 195-209): the month-name regex is
  modelled by an explicit scanner with the same leftmost-position,
  ordered-alternation and greedy-with-backtracking `\d{1,2}` semantics;
  `str.lower` / `\s` / `\d` are modelled in their ASCII readings.
* the final assembly step of `main` (lines 254-257) that deletes empty
  `images` keys.
-/

/-! ## URL normalization (lines 80, 182, 184) -/

/-- The routing prefix pattern of `re.sub(r"/index\.php/", "/", ...)`. -/
def NORM_PAT : List Char := "/index.php/".data

/-- One left-to-right pass of `re.sub(r"/index\.php/", "/", s)`: at each
position, if the pattern starts here, emit the replacement `'/'` and
continue after the match (the replacement is not rescanned, exactly as
Python behaves); otherwise copy one character.  `fuel` (instantiated
with the length of the list) only makes the recursion structural; every
step consumes at least one character per unit of fuel. -/
def normCharsAux : Nat → List Char → List Char
  | 0, l => l
  | _ + 1, [] => []
  | fuel + 1, c :: rest =>
    if (c :: rest).take NORM_PAT.length = NORM_PAT then
      '/' :: normCharsAux fuel ((c :: rest).drop NORM_PAT.length)
    else
      c :: normCharsAux fuel rest

/-- `re.sub(r"/index\.php/", "/", s)` — the URL normalization used on
lines 80, 182 and 184 of the source. -/
def normalizeUrl (s : String) : String :=
  String.mk (normCharsAux s.data.length s.data)

/-- Python's `pat in s` substring test on character lists (`"" in s` is
true in Python, matching the `pat.isEmpty` base case). -/
def hasSub (pat : List Char) : List Char → Bool
  | [] => pat.isEmpty
  | c :: rest => ((c :: rest).take pat.length == pat) || hasSub pat rest

/-! ## Listing paginator model (`collect_article_urls`, lines 58-91) -/

/-- An anchor inside an `article.story` block; `href` is `none` when the
tag has no href attribute. -/
structure ListingLink where
  href : Option String
deriving DecidableEq

/-- One `article.story` block of a listing page, as the ordered list of
its anchors. -/
structure ListingArticle where
  links : List ListingLink
deriving DecidableEq

/-- The article-identifier segment tested by
`lambda h: h and "/node/" in h` (line 75). -/
def NODE_PAT : List Char := "/node/".data

/-- `article.find("a", href=lambda h: h and "/node/" in h)` (line 75):
the first anchor whose href is present, non-empty (Python truthiness)
and contains `"/node/"`. -/
def nodeLinkOf (art : ListingArticle) : Option String :=
  art.links.findSome? fun lk =>
    match lk.href with
    | some h => if (!h.data.isEmpty) && hasSub NODE_PAT h.data then some h else none
    | none => none

/-- The body of the inner `for article in articles` loop (lines 74-84).
State is `(seen, article_urls)`; `seen` is the normalized-URL set
(modelled as a list used only through membership), `article_urls` the
output in append order.  Note that the source appends `full_url`, not
`normalized` (line 83). -/
def addArticle (resolve : String → String) (acc : List String × List String)
    (art : ListingArticle) : List String × List String :=
  match nodeLinkOf art with
  | none => acc
  | some href =>
    let full_url := resolve href
    let normalized := normalizeUrl full_url
    if normalized ∈ acc.1 then acc
    else (normalized :: acc.1, acc.2 ++ [full_url])

/-- Processing of one listing page (the `soup.find_all("article", ...)`
loop body for one fetched page). -/
def collectPage (resolve : String → String) (acc : List String × List String)
    (page : List ListingArticle) : List String × List String :=
  page.foldl (addArticle resolve) acc

/-- `collect_article_urls` (lines 58-91), with the fetched listing pages
given as data and `urljoin BASE_URL` given as the abstract `resolve`
capability; printing and the polite delay have no effect on the result
and are dropped. -/
def collect_article_urls (resolve : String → String)
    (pages : List (List ListingArticle)) : List String :=
  (pages.foldl (collectPage resolve) ([], [])).2

/-- All candidate URLs in traversal (first-discovery) order: for each
page in order, the resolved link of every block that has one. -/
def discoveredUrls (resolve : String → String)
    (pages : List (List ListingArticle)) : List String :=
  (pages.map fun page => page.filterMap fun a => (nodeLinkOf a).map resolve).flatten

/-! ## Filename deriver (`make_local_filename`, lines 94-108) -/

/-- Python regex `\w` (word character), in its ASCII reading:
alphanumeric or underscore. -/
def isWordChar (c : Char) : Bool :=
  c.isAlphanum || c == '_'

/-- One character of `re.sub(r"[^\w.\-]", "_", basename)` (line 107):
characters outside the safe set are replaced by `'_'`. -/
def safeChar (c : Char) : Char :=
  if isWordChar c || c == '.' || c == '-' then c else '_'

/-- `os.path.basename` (POSIX form, line 99): the characters after the
last `'/'`. -/
def basenameOf (l : List Char) : List Char :=
  (l.reverse.takeWhile fun c => !(c == '/')).reverse

/-- `re.sub(r"\?.*$", "", basename)` (line 101) with Python semantics:
the leftmost `'?'` after which `.*$` can reach the end is the start of
the (single possible) match; `.` does not cross a newline and `$` also
matches just before a final newline, so a `'?'` whose tail contains an
interior newline does not match and scanning continues. -/
def stripQueryAux : List Char → List Char
  | [] => []
  | c :: rest =>
    if c = '?' ∧ rest.count '\n' = 0 then []
    else if c = '?' ∧ rest.getLast? = some '\n' ∧ rest.count '\n' = 1 then ['\n']
    else c :: stripQueryAux rest

/-- Whether the last `k` characters are word characters preceded by a
`'.'` — one alternative of `re.search(r"\.\w{2,5}$", basename)`. -/
def endsWithDotWord (core : List Char) (k : Nat) : Bool :=
  (core.reverse.take k).all isWordChar && ((core.reverse.drop k).head? == some '.')

/-- `re.search(r"\.\w{2,5}$", basename)` (line 103): some suffix of 2-5
word characters preceded by a dot, anchored at the end of the string
(or just before a single final newline, Python's `$`). -/
def hasShortExt (l : List Char) : Bool :=
  let core := if l.getLast? = some '\n' then l.dropLast else l
  endsWithDotWord core 2 || endsWithDotWord core 3 ||
    endsWithDotWord core 4 || endsWithDotWord core 5

/-- Modelled from the spec: the spec's "short alphabetic extension (2-5
characters)" — the same shape as `hasShortExt` but with strictly
alphabetic extension characters, used to compare the spec's wording
with the source's `\w`-based test. -/
def specEndsWithDotAlpha (core : List Char) (k : Nat) : Bool :=
  (core.reverse.take k).all Char.isAlpha && ((core.reverse.drop k).head? == some '.')

/-- Modelled from the spec: "candidate has a short alphabetic extension
of 2-5 characters". -/
def specHasShortAlphaExt (l : List Char) : Bool :=
  let core := if l.getLast? = some '\n' then l.dropLast else l
  specEndsWithDotAlpha core 2 || specEndsWithDotAlpha core 3 ||
    specEndsWithDotAlpha core 4 || specEndsWithDotAlpha core 5

/-- `make_local_filename` (lines 94-108).  `pathOf` abstracts
`unquote(urlparse(img_url).path)` and `md5hex` abstracts
`hashlib.md5(img_url.encode()).hexdigest()`, both external library
primitives; everything else follows the source line by line. -/
def make_local_filename (md5hex pathOf : String → String) (img_url : String) : String :=
  let path := pathOf img_url
  let basename0 := basenameOf path.data
  let basename1 := stripQueryAux basename0
  let basename2 :=
    if basename1.isEmpty || !(hasShortExt basename1) then
      (md5hex img_url).data.take 12 ++ ".jpg".data
    else basename1
  String.mk (basename2.map safeChar)

/-! ## Image localization step (`scrape_article`, lines 144-171) -/

/-- The fixed responsive style set on line 171. -/
def RESPONSIVE_STYLE : String := "max-width:100%; height:auto;"

/-- Observable outcome of processing one `<img>` element: final `src`
and `style` attributes (`none` = attribute absent), the refs appended to
the article's `images` list, and whether `download_image` was invoked
(i.e. whether any network fetch was attempted). -/
structure ImgStep where
  srcAttr : Option String
  styleAttr : Option String
  appended : List String
  fetched : Bool
deriving DecidableEq

/-- The body of `for img in body_div.find_all("img")` (lines 144-171)
for a single image element.  `resolve` abstracts `urljoin BASE_URL`,
`fileExists` abstracts `os.path.exists`, and `downloadOk` abstracts the
success of `download_image` (which is the only network access in the
loop, so `fetched` records exactly whether it was called).  The
`startswith("blob:")` test is taken on the character list. -/
def processImg (md5hex pathOf resolve : String → String)
    (fileExists downloadOk : String → Bool)
    (srcAttr styleAttr : Option String) : ImgStep :=
  let src := srcAttr.getD ""
  if src = "" then ⟨srcAttr, styleAttr, [], false⟩
  else
    let abs_url := resolve src
    if "blob:".data.isPrefixOf abs_url.data then ⟨srcAttr, styleAttr, [], false⟩
    else
      let local_name := make_local_filename md5hex pathOf abs_url
      let local_path := "images/" ++ local_name
      let local_ref := "images/" ++ local_name
      if !(fileExists local_path) then
        if downloadOk abs_url then ⟨some local_ref, some RESPONSIVE_STYLE, [local_ref], true⟩
        else ⟨some abs_url, some RESPONSIVE_STYLE, [], true⟩
      else ⟨some local_ref, some RESPONSIVE_STYLE, [local_ref], false⟩

/-! ## Date inferencer (`try_extract_date_from_title`, lines 195-209) -/

/-- Python regex `\s` (ASCII reading): the six ASCII whitespace
characters. -/
def isPySpace (c : Char) : Bool :=
  c == ' ' || c == '\t' || c == '\n' || c == '\x0b' || c == '\x0c' || c == '\r'

/-- The `months` dict of line 197-201, in insertion order (which is the
alternation order of the generated regex). -/
def monthNames : List (String × String) :=
  [("january", "01"), ("february", "02"), ("march", "03"), ("april", "04"),
   ("may", "05"), ("june", "06"), ("july", "07"), ("august", "08"),
   ("september", "09"), ("october", "10"), ("november", "11"), ("december", "12")]

/-- The alternation `(january|...|december)` at the current position:
the first month name (in dict order) that is a literal prefix here,
returning its two-digit number and the rest of the input. -/
def matchMonth (l : List Char) : Option (String × List Char) :=
  monthNames.findSome? fun p =>
    if l.take p.1.data.length = p.1.data then some (p.2, l.drop p.1.data.length)
    else none

/-- `\s*,?\s*(\d{4})` after the day: skip whitespace, one optional
comma, whitespace, then require at least four digits and capture the
first four (no backtracking is possible here since none of `\s`, `,`,
`\d` overlap). -/
def matchYearTail (l : List Char) : Option (List Char) :=
  let r1 := l.dropWhile isPySpace
  let r2 := if r1.head? = some ',' then r1.tail else r1
  let r3 := r2.dropWhile isPySpace
  if 4 ≤ (r3.takeWhile Char.isDigit).length then some (r3.take 4) else none

/-- `(\d{1,2})\s*,?\s*(\d{4})`: the greedy day capture tries two digits
first and backtracks to one digit if the year tail fails. -/
def matchDayYear (l : List Char) : Option (List Char × List Char) :=
  let ds := l.takeWhile Char.isDigit
  if 2 ≤ ds.length then
    match matchYearTail (l.drop 2) with
    | some y => some (l.take 2, y)
    | none =>
      match matchYearTail (l.drop 1) with
      | some y => some (l.take 1, y)
      | none => none
  else if 1 ≤ ds.length then
    match matchYearTail (l.drop 1) with
    | some y => some (l.take 1, y)
    | none => none
  else none

/-- Python `str.zfill 2`: left-pad with `'0'` to width two. -/
def zfill2 (d : List Char) : List Char :=
  List.replicate (2 - d.length) '0' ++ d

/-- Attempt a full pattern match starting exactly at the current
position; on success, build the `f"{year}-{month}-{day}"` result string
of lines 205-208. -/
def tryAt (l : List Char) : Option String :=
  match matchMonth l with
  | none => none
  | some (mnum, rest) =>
    let ws := rest.takeWhile isPySpace
    if ws.isEmpty then none
    else
      match matchDayYear (rest.drop ws.length) with
      | none => none
      | some (day, year) =>
        some (String.mk (year ++ '-' :: mnum.data ++ '-' :: zfill2 day))

/-- `re.search`: try every start position from left to right. -/
def findDateFrom : List Char → Option String
  | [] => none
  | c :: rest =>
    match tryAt (c :: rest) with
    | some d => some d
    | none => findDateFrom rest

/-- `try_extract_date_from_title` (lines 195-209): search the lowercased
title (ASCII reading of `str.lower`) and return the formatted date, or
`""` when there is no match. -/
def try_extract_date_from_title (title : String) : String :=
  (findDateFrom (title.data.map Char.toLower)).getD ""

/-- Numeric value of an ASCII digit. -/
def digitVal (c : Char) : Nat := c.toNat - '0'.toNat

/-- Modelled from the spec: days in a month of the proleptic Gregorian
calendar, used to state the spec's "calendar-valid ISO-8601 date". -/
def specDaysInMonth (y m : Nat) : Nat :=
  if m = 2 then (if (y % 4 = 0 ∧ y % 100 ≠ 0) ∨ y % 400 = 0 then 29 else 28)
  else if m = 4 ∨ m = 6 ∨ m = 9 ∨ m = 11 then 30
  else 31

/-- Modelled from the spec: whether a string is a calendar-valid
ISO-8601 `YYYY-MM-DD` date. -/
def specCalendarValidISO (s : String) : Bool :=
  match s.data with
  | [y1, y2, y3, y4, h1, m1, m2, h2, d1, d2] =>
    (h1 == '-') && (h2 == '-') &&
    ([y1, y2, y3, y4, m1, m2, d1, d2].all Char.isDigit) &&
    (let y := ((digitVal y1 * 10 + digitVal y2) * 10 + digitVal y3) * 10 + digitVal y4
     let m := digitVal m1 * 10 + digitVal m2
     let d := digitVal d1 * 10 + digitVal d2
     decide (1 ≤ m) && decide (m ≤ 12) && decide (1 ≤ d) &&
       decide (d ≤ specDaysInMonth y m))
  | _ => false

/-! ## Final assembly (`main`, lines 254-257) -/

/-- An entry as returned by `scrape_article` (lines 186-192): the
`images` key is always present, as a list. -/
structure ScrapedEntry where
  title : String
  date : String
  body : String
  link : String
  images : List String
deriving DecidableEq

/-- An entry after step 3 of `main`: the `images` key may have been
deleted, modelled by `Option`. -/
structure FinalEntry where
  title : String
  date : String
  body : String
  link : String
  images : Option (List String)
deriving DecidableEq

/-- The body of the step-3 loop (lines 255-257): `del entry["images"]`
exactly when the list is empty (Python falsiness of `[]`). -/
def dropEmptyImages (e : ScrapedEntry) : FinalEntry :=
  ⟨e.title, e.date, e.body, e.link, if e.images.isEmpty then none else some e.images⟩

/-- Step 3 of `main` (lines 254-257) applied to the collected entries. -/
def finalizeEntries (entries : List ScrapedEntry) : List FinalEntry :=
  entries.map dropEmptyImages

/-! ## Helper lemmas -/

/-- If the pattern occurs nowhere in `l`, the substitution pass copies
`l` unchanged, whatever the fuel. -/
theorem normCharsAux_noop : ∀ (fuel : Nat) (l : List Char),
    hasSub NORM_PAT l = false → normCharsAux fuel l = l := by
  intro fuel
  induction fuel with
  | zero => intro l _; rfl
  | succ n ih =>
    intro l h
    cases l with
    | nil => rfl
    | cons c rest =>
      simp only [hasSub, Bool.or_eq_false_iff, beq_eq_false_iff_ne, ne_eq] at h
      simp only [normCharsAux, if_neg h.1, ih rest h.2]

/-- URLs not containing the routing prefix are fixed points of
normalization. -/
theorem normalizeUrl_noop (u : String) (h : hasSub NORM_PAT u.data = false) :
    normalizeUrl u = u := by
  unfold normalizeUrl
  rw [normCharsAux_noop _ _ h]

/-- A generic foldl invariant-preservation lemma. -/
theorem foldl_inv {α β : Type} (f : β → α → β) (P : β → Prop)
    (hf : ∀ b a, P b → P (f b a)) :
    ∀ (l : List α) (b : β), P b → P (l.foldl f b) := by
  intro l
  induction l with
  | nil => intro b hb; exact hb
  | cons a l ih => intro b hb; exact ih _ (hf b a hb)

/-- The invariant carried through `collect_article_urls`: the output's
normalizations are pairwise distinct, and each of them is recorded in
the seen set. -/
def CollectInv (acc : List String × List String) : Prop :=
  (acc.2.map normalizeUrl).Nodup ∧ ∀ e ∈ acc.2, normalizeUrl e ∈ acc.1

theorem addArticle_inv (resolve : String → String) (acc : List String × List String)
    (art : ListingArticle) (h : CollectInv acc) :
    CollectInv (addArticle resolve acc art) := by
  unfold addArticle
  cases nodeLinkOf art with
  | none => exact h
  | some href =>
    by_cases hc : normalizeUrl (resolve href) ∈ acc.1
    · simpa [hc] using h
    · simp only [if_neg hc]
      constructor
      · rw [List.map_append]
        rw [List.nodup_append]
        refine ⟨h.1, by simp, ?_⟩
        intro x hx
        simp only [List.map_cons, List.map_nil, List.mem_singleton]
        intro hx1
        subst hx1
        obtain ⟨e, he, hne⟩ := List.mem_map.1 hx
        exact hc (hne ▸ h.2 e he)
      · intro e he
        rcases List.mem_append.1 he with he | he
        · exact List.mem_cons_of_mem _ (h.2 e he)
        · rcases List.mem_singleton.1 he with rfl
          exact List.mem_cons_self _ _

theorem collectPage_inv (resolve : String → String) (acc : List String × List String)
    (page : List ListingArticle) (h : CollectInv acc) :
    CollectInv (collectPage resolve acc page) :=
  foldl_inv _ _ (addArticle_inv resolve) page acc h

/-- The second component of the fold over one page grows by a sublist of
the page's discovered links, in order. -/
theorem addArticle_snd (resolve : String → String) (acc : List String × List String)
    (art : ListingArticle) :
    ∃ s, (addArticle resolve acc art).2 = acc.2 ++ s ∧
      s.Sublist ((nodeLinkOf art).map resolve).toList := by
  unfold addArticle
  cases nodeLinkOf art with
  | none => exact ⟨[], by simp⟩
  | some href =>
    by_cases hc : normalizeUrl (resolve href) ∈ acc.1
    · exact ⟨[], by simp [hc]⟩
    · exact ⟨[resolve href], by simp [hc]⟩

theorem foldl_articles_snd (resolve : String → String) :
    ∀ (arts : List ListingArticle) (acc : List String × List String),
      ∃ s, (arts.foldl (addArticle resolve) acc).2 = acc.2 ++ s ∧
        s.Sublist (arts.filterMap fun a => (nodeLinkOf a).map resolve) := by
  intro arts
  induction arts with
  | nil => intro acc; exact ⟨[], by simp⟩
  | cons a arts ih =>
    intro acc
    obtain ⟨s1, h1, hs1⟩ := addArticle_snd resolve acc a
    obtain ⟨s2, h2, hs2⟩ := ih (addArticle resolve acc a)
    refine ⟨s1 ++ s2, ?_, ?_⟩
    · simp only [List.foldl_cons, h2, h1, List.append_assoc]
    · have : (List.filterMap (fun a => (nodeLinkOf a).map resolve) (a :: arts)) =
        ((nodeLinkOf a).map resolve).toList ++
          arts.filterMap fun a => (nodeLinkOf a).map resolve := by
        cases h : (nodeLinkOf a).map resolve with
        | none => simp [List.filterMap_cons, h]
        | some b => simp [List.filterMap_cons, h]
      rw [this]
      exact hs1.append hs2

theorem foldl_pages_snd (resolve : String → String) :
    ∀ (pages : List (List ListingArticle)) (acc : List String × List String),
      ∃ s, (pages.foldl (collectPage resolve) acc).2 = acc.2 ++ s ∧
        s.Sublist (discoveredUrls resolve pages) := by
  intro pages
  induction pages with
  | nil => intro acc; exact ⟨[], by simp [discoveredUrls]⟩
  | cons p pages ih =>
    intro acc
    obtain ⟨s1, h1, hs1⟩ := foldl_articles_snd resolve p acc
    obtain ⟨s2, h2, hs2⟩ := ih (collectPage resolve acc p)
    refine ⟨s1 ++ s2, ?_, ?_⟩
    · simp only [List.foldl_cons, h2]
      simp only [collectPage] at h1 ⊢
      rw [h1, List.append_assoc]
    · simp only [discoveredUrls, List.map_cons, List.flatten_cons]
      exact hs1.append hs2

/-! ## Claims C1-C3 -/

/-- C1 (counterexample): normalization as implemented is NOT idempotent
on every URL string — when removing one occurrence of `/index.php/`
creates a new occurrence, a second pass removes more.  At
`"/index.php/index.php/"` one pass yields `"/index.php/"` and a second
pass yields `"/"`. -/
theorem normalize_not_idempotent_cex :
    normalizeUrl (normalizeUrl "/index.php/index.php/") ≠
      normalizeUrl "/index.php/index.php/" := by decide

/-- C1 (amended): normalization is a no-op on every URL containing no
occurrence of the `/index.php/` routing prefix, and consequently it is
idempotent on every URL whose single-pass normal form contains no
residual occurrence of the prefix (which is every URL without
overlapping occurrences); full idempotence fails only in the residual
case exhibited by the counterexample. -/
theorem normalize_noop_and_idempotent :
    (∀ u : String, hasSub NORM_PAT u.data = false → normalizeUrl u = u) ∧
    (∀ u : String, hasSub NORM_PAT (normalizeUrl u).data = false →
      normalizeUrl (normalizeUrl u) = normalizeUrl u) :=
  ⟨fun u h => normalizeUrl_noop u h, fun u h => normalizeUrl_noop (normalizeUrl u) h⟩

/-- C1 (witness): the amended theorem applied at a prefix-free URL and
at a URL with a single routing prefix. -/
theorem normalize_noop_and_idempotent_witness :
    normalizeUrl "https://dignityny.org/node/123" = "https://dignityny.org/node/123" ∧
    normalizeUrl (normalizeUrl "https://dignityny.org/index.php/node/123") =
      normalizeUrl "https://dignityny.org/index.php/node/123" :=
  ⟨normalize_noop_and_idempotent.1 _ (by decide),
   normalize_noop_and_idempotent.2 _ (by decide)⟩

/-- C2 (counterexample): `collect_article_urls` appends the resolved
`full_url`, not its normalization (line 83), so when a listing link
carries the routing prefix, the returned entry does not equal its own
normalization. -/
theorem collect_unnormalized_entry_cex :
    collect_article_urls (fun s => s)
        [[⟨[⟨some "https://dignityny.org/index.php/node/1"⟩]⟩]] =
      ["https://dignityny.org/index.php/node/1"] ∧
    normalizeUrl "https://dignityny.org/index.php/node/1" ≠
      "https://dignityny.org/index.php/node/1" :=
  ⟨by decide, by decide⟩

/-- C2 (amended): the normalized form is used only for the seen-set
membership test, while the entry appended is the resolved URL itself;
hence every entry of the returned list equals its own normalization
precisely when the discovered links resolve without the routing prefix:
for every listing input all of whose discovered links resolve to
prefix-free URLs, every returned entry equals its own normalization. -/
theorem collect_entries_normalized_of_clean (resolve : String → String)
    (pages : List (List ListingArticle))
    (hclean : ∀ page ∈ pages, ∀ art ∈ page, ∀ href, nodeLinkOf art = some href →
      hasSub NORM_PAT (resolve href).data = false) :
    ∀ e ∈ collect_article_urls resolve pages, normalizeUrl e = e := by
  intro e he
  obtain ⟨s, hs, hsub⟩ := foldl_pages_snd resolve pages ([], [])
  unfold collect_article_urls at he
  rw [hs] at he
  simp only [List.nil_append] at he
  have hd : e ∈ discoveredUrls resolve pages := hsub.subset he
  unfold discoveredUrls at hd
  rw [List.mem_flatten] at hd
  obtain ⟨l, hl, hel⟩ := hd
  rw [List.mem_map] at hl
  obtain ⟨page, hpage, rfl⟩ := hl
  rw [List.mem_filterMap] at hel
  obtain ⟨art, hart, hresolve⟩ := hel
  rw [Option.map_eq_some'] at hresolve
  obtain ⟨href, hhref, rfl⟩ := hresolve
  exact normalizeUrl_noop _ (hclean page hpage art hart href hhref)

/-- C2 (witness): the amended theorem applied to a one-page listing with
a single prefix-free link. -/
theorem collect_entries_normalized_of_clean_witness :
    normalizeUrl "https://dignityny.org/node/7" = "https://dignityny.org/node/7" := by
  refine collect_entries_normalized_of_clean (fun s => s)
    [[⟨[⟨some "https://dignityny.org/node/7"⟩]⟩]] ?_ _ ?_
  · intro page hp art ha href hh
    simp only [List.mem_singleton] at hp
    subst hp
    simp only [List.mem_singleton] at ha
    subst ha
    have hn : nodeLinkOf ⟨[⟨some "https://dignityny.org/node/7"⟩]⟩ =
        some "https://dignityny.org/node/7" := by decide
    rw [hn] at hh
    cases hh
    decide
  · decide

/-- C3: the list returned by `collect_article_urls` never contains two
entries with equal normalized forms (even when the same link appears on
several pages), and its entries appear in first-discovery order — the
output is a sublist of the full traversal-order sequence of discovered
links. -/
theorem collect_article_urls_nodup_ordered (resolve : String → String)
    (pages : List (List ListingArticle)) :
    ((collect_article_urls resolve pages).map normalizeUrl).Nodup ∧
    (collect_article_urls resolve pages).Sublist (discoveredUrls resolve pages) := by
  constructor
  · have hinv : CollectInv (pages.foldl (collectPage resolve) ([], [])) :=
      foldl_inv _ CollectInv (fun b a hb => collectPage_inv resolve b a hb) pages
        ([], []) ⟨by simp, by simp⟩
    exact hinv.1
  · obtain ⟨s, hs, hsub⟩ := foldl_pages_snd resolve pages ([], [])
    unfold collect_article_urls
    rw [hs]
    simpa using hsub

/-- C3 (witness): the theorem applied to a concrete two-page listing in
which the same article appears on both pages. -/
theorem collect_article_urls_nodup_ordered_witness :
    ((collect_article_urls (fun s => s)
        [[⟨[⟨some "/node/1"⟩]⟩], [⟨[⟨some "/node/1"⟩]⟩, ⟨[⟨some "/node/2"⟩]⟩]]).map
          normalizeUrl).Nodup ∧
    (collect_article_urls (fun s => s)
        [[⟨[⟨some "/node/1"⟩]⟩], [⟨[⟨some "/node/1"⟩]⟩, ⟨[⟨some "/node/2"⟩]⟩]]).Sublist
      (discoveredUrls (fun s => s)
        [[⟨[⟨some "/node/1"⟩]⟩], [⟨[⟨some "/node/1"⟩]⟩, ⟨[⟨some "/node/2"⟩]⟩]]) :=
  collect_article_urls_nodup_ordered _ _

/-! ## Claims C4-C5 -/

/-- Mapping a function that fixes every element of a list is the
identity on that list. -/
theorem map_id_of_fix {f : Char → Char} :
    ∀ l : List Char, (∀ c ∈ l, f c = c) → l.map f = l := by
  intro l
  induction l with
  | nil => intro _; rfl
  | cons a l ih =>
    intro h
    simp only [List.map_cons, h a (List.mem_cons_self a l),
      ih fun c hc => h c (List.mem_cons_of_mem a hc)]

/-- C4: `make_local_filename` is a pure deterministic function of the
image URL (same call, same result), and every character of its output
lies in the safe set: alphanumeric, underscore, dot or hyphen. -/
theorem make_local_filename_det_safe (md5hex pathOf : String → String) (u : String) :
    make_local_filename md5hex pathOf u = make_local_filename md5hex pathOf u ∧
    ∀ c ∈ (make_local_filename md5hex pathOf u).data,
      c.isAlphanum = true ∨ c = '_' ∨ c = '.' ∨ c = '-' := by
  refine ⟨rfl, ?_⟩
  intro c hc
  unfold make_local_filename at hc
  simp only [String.data] at hc
  rw [List.mem_map] at hc
  obtain ⟨a, _, ha⟩ := hc
  subst ha
  unfold safeChar
  split
  · rename_i h
    simp only [Bool.or_eq_true, beq_iff_eq, isWordChar] at h
    tauto
  · exact Or.inr (Or.inl rfl)

/-- C4 (witness): the theorem applied at a concrete URL, with the
character picked from the concrete output `"a.jpg"`. -/
theorem make_local_filename_det_safe_witness :
    'a'.isAlphanum = true ∨ 'a' = '_' ∨ 'a' = '.' ∨ 'a' = '-' :=
  (make_local_filename_det_safe (fun _ => "") (fun _ => "/a.jpg") "http://x/a.jpg").2
    'a' (by decide)

/-- C5 (counterexample): the code's extension test is `\.\w{2,5}$`
(word characters: letters, digits or underscore), not "alphabetic" as
the claim states.  The candidate `"photo.123"` has no 2-5 character
alphabetic extension, so by the claim the result should be the
hash-derived name, yet the code keeps `"photo.123"`. -/
theorem make_local_filename_wordchar_ext_cex :
    specHasShortAlphaExt
        (stripQueryAux (basenameOf ((fun (_ : String) => "/photo.123") "u").data)) = false ∧
    make_local_filename (fun _ => "0123456789abcdef0123456789abcdef")
        (fun _ => "/photo.123") "u" = "photo.123" ∧
    ("photo.123" : String) ≠
      String.mk (((fun (_ : String) => "0123456789abcdef0123456789abcdef") "u").data.take 12
        ++ ".jpg".data) :=
  ⟨by decide, by decide, by decide⟩

/-- C5 (amended): the hash fallback is taken exactly when the candidate
basename is empty or lacks a short word-character extension of 2-5
characters (letters, digits or underscore, per the regex class `\w`);
in the fallback case the result is the first 12 characters of the hash
of the URL string followed by `".jpg"` (the hash characters being
alphanumeric, the safe-character replacement fixes them), and otherwise
the candidate basename after safe-character replacement is returned. -/
theorem make_local_filename_branches (md5hex pathOf : String → String) (u : String)
    (hhex : ∀ c ∈ (md5hex u).data, c.isAlphanum = true) :
    (stripQueryAux (basenameOf (pathOf u).data) = [] ∨
        hasShortExt (stripQueryAux (basenameOf (pathOf u).data)) = false →
      make_local_filename md5hex pathOf u =
        String.mk ((md5hex u).data.take 12 ++ ".jpg".data)) ∧
    (stripQueryAux (basenameOf (pathOf u).data) ≠ [] ∧
        hasShortExt (stripQueryAux (basenameOf (pathOf u).data)) = true →
      make_local_filename md5hex pathOf u =
        String.mk ((stripQueryAux (basenameOf (pathOf u).data)).map safeChar)) := by
  have hfix1 : ((md5hex u).data.take 12).map safeChar = (md5hex u).data.take 12 := by
    apply map_id_of_fix
    intro c hc
    have : c.isAlphanum = true := hhex c (List.take_subset 12 _ hc)
    simp [safeChar, isWordChar, this]
  have hfix2 : (".jpg".data).map safeChar = ".jpg".data := by decide
  constructor
  · intro hcond
    rcases hcond with h | h
    · simp [make_local_filename, h, hfix1, hfix2]
    · simp [make_local_filename, h, hfix1, hfix2]
  · intro hcond
    have hb : (stripQueryAux (basenameOf (pathOf u).data)).isEmpty = false :=
      List.isEmpty_eq_false.mpr hcond.1
    simp [make_local_filename, hcond.2, hb]

/-- C5 (witness): the amended theorem applied with a concrete
hexadecimal hash function; the path `"/"` gives an empty candidate, so
the fallback branch yields the truncated hash plus `".jpg"`. -/
theorem make_local_filename_branches_witness :
    make_local_filename (fun _ => "0123456789abcdef0123456789abcdef") (fun _ => "/") "u" =
      String.mk (((fun (_ : String) => "0123456789abcdef0123456789abcdef") "u").data.take 12
        ++ ".jpg".data) :=
  (make_local_filename_branches (fun _ => "0123456789abcdef0123456789abcdef")
      (fun _ => "/") "u" (by decide)).1 (by decide)

/-! ## Claims C6-C7 -/

/-- `findSome?` returning a value means some list element produced it. -/
theorem findSome?_mem {α β : Type} {f : α → Option β} :
    ∀ {l : List α} {b : β}, l.findSome? f = some b → ∃ a ∈ l, f a = some b := by
  intro l
  induction l with
  | nil => intro b h; simp [List.findSome?] at h
  | cons a l ih =>
    intro b h
    rw [List.findSome?_cons] at h
    cases hfa : f a with
    | some c =>
      rw [hfa] at h
      cases h
      exact ⟨a, List.mem_cons_self a l, hfa⟩
    | none =>
      rw [hfa] at h
      obtain ⟨x, hx, hfx⟩ := ih h
      exact ⟨x, List.mem_cons_of_mem a hx, hfx⟩

/-- Characters inside `l.take n` satisfy `p` whenever the `takeWhile p`
run of `l` is at least `n` long. -/
theorem mem_take_of_takeWhile {p : Char → Bool} :
    ∀ (l : List Char) (n : Nat), n ≤ (l.takeWhile p).length →
      ∀ c ∈ l.take n, p c = true := by
  intro l
  induction l with
  | nil => intro n _ c hc; simp at hc
  | cons a l ih =>
    intro n hn c hc
    cases n with
    | zero => simp at hc
    | succ m =>
      by_cases hp : p a
      · rw [List.takeWhile_cons, if_pos hp] at hn
        simp only [List.length_cons, Nat.succ_le_succ_iff] at hn
        rw [List.take_succ_cons] at hc
        rcases List.mem_cons.1 hc with rfl | hc
        · exact hp
        · exact ih m hn c hc
      · rw [List.takeWhile_cons, if_neg hp] at hn
        simp at hn
  

/-- The `takeWhile` run is never longer than the list. -/
theorem takeWhile_len_le (p : Char → Bool) (l : List Char) :
    (l.takeWhile p).length ≤ l.length :=
  (List.takeWhile_sublist p).length_le

/-- Shape of a successful year-tail match: four characters, all
digits. -/
theorem take_of_digit_run {r : List Char} {n : Nat}
    (hlen : n ≤ (r.takeWhile Char.isDigit).length) :
    (r.take n).length = n ∧ ∀ c ∈ r.take n, c.isDigit = true := by
  constructor
  · rw [List.length_take]
    have hr : n ≤ r.length := le_trans hlen (takeWhile_len_le Char.isDigit r)
    omega
  · exact mem_take_of_takeWhile r n hlen

theorem matchYearTail_shape {l y : List Char} (h : matchYearTail l = some y) :
    y.length = 4 ∧ ∀ c ∈ y, c.isDigit = true := by
  simp only [matchYearTail] at h
  split at h
  · split at h
    · next hlen => cases h; exact take_of_digit_run hlen
    · cases h
  · split at h
    · next hlen => cases h; exact take_of_digit_run hlen
    · cases h

/-- Shape of a successful day-and-year match: the day is one or two
digits, the year four digits. -/
theorem matchDayYear_shape {l d y : List Char} (h : matchDayYear l = some (d, y)) :
    (d.length = 1 ∨ d.length = 2) ∧ (∀ c ∈ d, c.isDigit = true) ∧
      y.length = 4 ∧ ∀ c ∈ y, c.isDigit = true := by
  unfold matchDayYear at h
  by_cases h2 : 2 ≤ (l.takeWhile Char.isDigit).length
  · rw [if_pos h2] at h
    have hlen2 : 2 ≤ l.length := le_trans h2 (takeWhile_len_le Char.isDigit l)
    cases hy2 : matchYearTail (l.drop 2) with
    | some y2 =>
      rw [hy2] at h
      cases h
      refine ⟨Or.inr ?_, mem_take_of_takeWhile l 2 h2, matchYearTail_shape hy2⟩
      rw [List.length_take]
      omega
    | none =>
      rw [hy2] at h
      cases hy1 : matchYearTail (l.drop 1) with
      | some y1 =>
        rw [hy1] at h
        cases h
        refine ⟨Or.inl ?_, mem_take_of_takeWhile l 1 (by omega), matchYearTail_shape hy1⟩
        rw [List.length_take]
        omega
      | none =>
        rw [hy1] at h
        cases h
  · rw [if_neg h2] at h
    by_cases h1 : 1 ≤ (l.takeWhile Char.isDigit).length
    · rw [if_pos h1] at h
      have hlen1 : 1 ≤ l.length := le_trans h1 (takeWhile_len_le Char.isDigit l)
      cases hy1 : matchYearTail (l.drop 1) with
      | some y1 =>
        rw [hy1] at h
        cases h
        refine ⟨Or.inl ?_, mem_take_of_takeWhile l 1 h1, matchYearTail_shape hy1⟩
        rw [List.length_take]
        omega
      | none =>
        rw [hy1] at h
        cases h
    · rw [if_neg h1] at h
      cases h

/-- A successful month match yields one of the twelve two-digit month
numbers. -/
theorem matchMonth_shape {l : List Char} {m : String} {rest : List Char}
    (h : matchMonth l = some (m, rest)) : m ∈ monthNames.map Prod.snd := by
  unfold matchMonth at h
  obtain ⟨p, hp, hfp⟩ := findSome?_mem h
  by_cases hc : l.take p.1.data.length = p.1.data
  · rw [if_pos hc] at hfp
    cases hfp
    exact List.mem_map.2 ⟨p, hp, rfl⟩
  · rw [if_neg hc] at hfp
    cases hfp

/-- Shape of a successful single-position match: the formatted
`year-month-day` string with a month number from the table, a four-digit
year and a one-or-two-digit zero-padded day. -/
theorem tryAt_shape {l : List Char} {s : String} (h : tryAt l = some s) :
    ∃ (y : List Char) (m : String) (d : List Char),
      m ∈ monthNames.map Prod.snd ∧
      y.length = 4 ∧ (∀ c ∈ y, c.isDigit = true) ∧
      (d.length = 1 ∨ d.length = 2) ∧ (∀ c ∈ d, c.isDigit = true) ∧
      s = String.mk (y ++ '-' :: m.data ++ '-' :: zfill2 d) := by
  unfold tryAt at h
  cases hm : matchMonth l with
  | none => rw [hm] at h; cases h
  | some pr =>
    rw [hm] at h
    obtain ⟨mnum, rest⟩ := pr
    dsimp only at h
    have hmem := matchMonth_shape hm
    by_cases hws : (rest.takeWhile isPySpace).isEmpty
    · rw [if_pos hws] at h
      cases h
    · rw [if_neg hws] at h
      cases hdy : matchDayYear (rest.drop (rest.takeWhile isPySpace).length) with
      | none => rw [hdy] at h; cases h
      | some pdy =>
        rw [hdy] at h
        obtain ⟨day, year⟩ := pdy
        cases h
        obtain ⟨hd, hdd, hy, hyd⟩ := matchDayYear_shape hdy
        exact ⟨year, mnum, day, hmem, hy, hyd, hd, hdd, rfl⟩

/-- Shape of any successful search over the whole title. -/
theorem findDateFrom_shape :
    ∀ {l : List Char} {s : String}, findDateFrom l = some s →
      ∃ (y : List Char) (m : String) (d : List Char),
        m ∈ monthNames.map Prod.snd ∧
        y.length = 4 ∧ (∀ c ∈ y, c.isDigit = true) ∧
        (d.length = 1 ∨ d.length = 2) ∧ (∀ c ∈ d, c.isDigit = true) ∧
        s = String.mk (y ++ '-' :: m.data ++ '-' :: zfill2 d) := by
  intro l
  induction l with
  | nil => intro s h; simp [findDateFrom] at h
  | cons c rest ih =>
    intro s h
    unfold findDateFrom at h
    cases ht : tryAt (c :: rest) with
    | some d => rw [ht] at h; cases h; exact tryAt_shape ht
    | none => rw [ht] at h; exact ih h

/-- C6: on the spec's concrete example the date inferencer returns the
ISO date `"2024-06-15"`; on a title with no recognizable date it
returns `""`; and in general whenever the month-day-year scan finds no
match in the lowercased title, the result is the empty string. -/
theorem date_inference_examples :
    try_extract_date_from_title "Pride Events — June 15, 2024 celebration" = "2024-06-15" ∧
    try_extract_date_from_title "Board meeting minutes" = "" ∧
    (∀ t : String, findDateFrom (t.data.map Char.toLower) = none →
      try_extract_date_from_title t = "") := by
  refine ⟨by decide, by decide, ?_⟩
  intro t h
  unfold try_extract_date_from_title
  rw [h]
  rfl

/-- C6 (witness): the general empty-result clause applied at a concrete
no-date title. -/
theorem date_inference_examples_witness :
    try_extract_date_from_title "Hello world" = "" :=
  date_inference_examples.2.2 "Hello world" (by decide)

/-- C7 (counterexample): the day digits are not validated against the
calendar, so the inferencer does return an incorrect (non-calendar)
date: the title `"June 45, 2024"` yields `"2024-06-45"`, which is not a
calendar-valid ISO date. -/
theorem date_inference_invalid_day_cex :
    try_extract_date_from_title "June 45, 2024" = "2024-06-45" ∧
    specCalendarValidISO "2024-06-45" = false :=
  ⟨by decide, by decide⟩

/-- C7 (amended): for every title the result is either the empty string
or a string of the form `YYYY-MM-DD` assembled from a matched month
name (MM one of the twelve month numbers), a four-digit year and a one
or two digit day zero-padded to two digits; the day is taken as written
and is not validated against the calendar. -/
theorem date_inference_shape (t : String) :
    try_extract_date_from_title t = "" ∨
    ∃ (y : List Char) (m : String) (d : List Char),
      m ∈ monthNames.map Prod.snd ∧
      y.length = 4 ∧ (∀ c ∈ y, c.isDigit = true) ∧
      (d.length = 1 ∨ d.length = 2) ∧ (∀ c ∈ d, c.isDigit = true) ∧
      try_extract_date_from_title t = String.mk (y ++ '-' :: m.data ++ '-' :: zfill2 d) := by
  unfold try_extract_date_from_title
  cases h : findDateFrom (t.data.map Char.toLower) with
  | none => exact Or.inl rfl
  | some s =>
    right
    obtain ⟨y, m, d, h1, h2, h3, h4, h5, rfl⟩ := findDateFrom_shape h
    exact ⟨y, m, d, h1, h2, h3, h4, h5, rfl⟩

/-! ## Claims C8-C10 -/

/-- C8: the image localization step is skip-if-exists — for an image
whose derived local path already names an existing file (and whose src
is present, non-empty and not a `blob:` URL), no download is attempted
(`fetched = false`), the `src` is rewritten to the existing local
reference, the fixed responsive style is applied, and the local
reference is recorded in the article's image list. -/
theorem image_skip_if_exists (md5hex pathOf resolve : String → String)
    (fileExists downloadOk : String → Bool) (styleAttr : Option String) (src : String)
    (hsrc : src ≠ "")
    (hblob : "blob:".data.isPrefixOf (resolve src).data = false)
    (hex : fileExists ("images/" ++ make_local_filename md5hex pathOf (resolve src)) = true) :
    processImg md5hex pathOf resolve fileExists downloadOk (some src) styleAttr =
      ⟨some ("images/" ++ make_local_filename md5hex pathOf (resolve src)),
       some RESPONSIVE_STYLE,
       ["images/" ++ make_local_filename md5hex pathOf (resolve src)], false⟩ := by
  simp [processImg, hsrc, hblob, hex]

/-- C8 (witness): the theorem applied with concrete oracles in which the
derived file `"images/a.jpg"` exists and any download would fail — the
step still succeeds locally without fetching. -/
theorem image_skip_if_exists_witness :
    processImg (fun _ => "") (fun _ => "/a.jpg") (fun s => s)
        (fun _ => true) (fun _ => false) (some "http://x/a.jpg") none =
      ⟨some ("images/" ++ make_local_filename (fun _ => "") (fun _ => "/a.jpg")
          ((fun (s : String) => s) "http://x/a.jpg")),
       some RESPONSIVE_STYLE,
       ["images/" ++ make_local_filename (fun _ => "") (fun _ => "/a.jpg")
          ((fun (s : String) => s) "http://x/a.jpg")], false⟩ :=
  image_skip_if_exists (fun _ => "") (fun _ => "/a.jpg") (fun s => s)
    (fun _ => true) (fun _ => false) none "http://x/a.jpg"
    (by decide) (by decide) (by decide)

/-- C9: after the step-3 assembly, every record with zero localized
images has its `images` key removed (`none`), every record with one or
more keeps it as the same non-empty ordered list. -/
theorem finalize_images_key_invariant :
    (∀ (entries : List ScrapedEntry) (e : FinalEntry), e ∈ finalizeEntries entries →
      e.images = none ∨ ∃ imgs, e.images = some imgs ∧ imgs ≠ []) ∧
    (∀ pre : ScrapedEntry, pre.images ≠ [] →
      (dropEmptyImages pre).images = some pre.images) := by
  constructor
  · intro entries e he
    obtain ⟨pre, _, rfl⟩ := List.mem_map.1 he
    unfold dropEmptyImages
    by_cases h : pre.images.isEmpty
    · exact Or.inl (by simp [h])
    · refine Or.inr ⟨pre.images, by simp [h], ?_⟩
      intro hnil
      rw [hnil] at h
      exact h rfl
  · intro pre h
    have hb : pre.images.isEmpty = false := List.isEmpty_eq_false.mpr h
    simp [dropEmptyImages, hb]

/-- C9 (witness): the invariant applied to a concrete two-entry
collection, one entry with an image and one without. -/
theorem finalize_images_key_invariant_witness :
    (⟨"t", "", "b", "l", some ["images/x.jpg"]⟩ : FinalEntry).images = none ∨
    ∃ imgs, (⟨"t", "", "b", "l", some ["images/x.jpg"]⟩ : FinalEntry).images = some imgs ∧
      imgs ≠ [] :=
  finalize_images_key_invariant.1
    [⟨"t", "", "b", "l", ["images/x.jpg"]⟩, ⟨"u", "", "c", "m", []⟩]
    ⟨"t", "", "b", "l", some ["images/x.jpg"]⟩ (by decide)

/-- C10: an image element whose `src` attribute is absent or empty is
skipped entirely: no download is attempted, nothing is appended to the
image list, and both the `src` and `style` attributes are left exactly
as they were. -/
theorem image_skip_empty_src (md5hex pathOf resolve : String → String)
    (fileExists downloadOk : String → Bool) (srcAttr styleAttr : Option String)
    (h : srcAttr = none ∨ srcAttr = some "") :
    processImg md5hex pathOf resolve fileExists downloadOk srcAttr styleAttr =
      ⟨srcAttr, styleAttr, [], false⟩ := by
  rcases h with h | h <;> subst h <;> simp [processImg]

/-- C10 (witness): the theorem applied to an element with no `src`
attribute and an arbitrary pre-existing style. -/
theorem image_skip_empty_src_witness :
    processImg (fun _ => "") (fun _ => "") (fun s => s) (fun _ => true) (fun _ => true)
        none (some "width:10px;") =
      ⟨none, some "width:10px;", [], false⟩ :=
  image_skip_empty_src (fun _ => "") (fun _ => "") (fun s => s) (fun _ => true)
    (fun _ => true) none (some "width:10px;") (Or.inl rfl)
